import Mathlib

/-!
Verification of the IntelliDoc document-processing pipeline core.

Shallow embedding of the Python sources of `fireflyframework_intellidoc`:
the job-lifecycle fan-out of `pipeline/orchestrator.py`, the field
resolution chain, the stage adapters, the catalog resolution of
`catalog/service.py`, the default-value backfill of
`extraction/service.py`, the validation aggregates of
`validation/service.py`, and the job status update of
`results/service.py`.

Python `dict`s are embedded as association lists with first-match
lookup and in-place replacement on assignment, floats (confidences,
thresholds, progress) as rationals, `datetime` values as integer
millisecond timestamps, and raised exceptions as `Except` values.
-/

namespace IntelliDoc

/-- `JobStatus` enum from `types.py`. -/
inductive JobStatus where
  | pending
  | ingesting
  | preprocessing
  | splitting
  | classifying
  | extracting
  | validating
  | completed
  | failed
  | partiallyCompleted
  | cancelled
  deriving DecidableEq, Repr

/-- `ValidatorSeverity` enum from `types.py`. -/
inductive ValidatorSeverity where
  | error
  | warning
  | info
  deriving DecidableEq, Repr

/-- `DocumentNature` enum from `types.py`. -/
inductive DocumentNature where
  | identity
  | financial
  | legal
  | medical
  | government
  | educational
  | commercial
  | insurance
  | realEstate
  | hr
  | correspondence
  | technical
  | other
  deriving DecidableEq, Repr

/-- `FieldType` enum from `types.py`. -/
inductive FieldType where
  | text
  | number
  | date
  | currency
  | boolean
  | email
  | phone
  | address
  | table
  | list
  | enum
  | imageRegion
  deriving DecidableEq, Repr

/-- `ValidationResult` from `results/domain/processing_result.py`
(the fields the validation aggregates read, plus identifying data). -/
structure ValidationResult where
  validator_code : String
  passed : Bool
  severity : ValidatorSeverity
  message : String := ""
  field_name : Option String := none
  deriving DecidableEq, Repr

/-- `ValidationService.compute_validation_score` from
`validation/service.py`: `passed / total`, `1.0` when there are no
results at all. -/
def compute_validation_score (results : List ValidationResult) : Rat :=
  if results.isEmpty then 1
  else ((results.countP (fun r => r.passed)) : Rat) / (results.length : Rat)

/-- `ValidationService.is_valid` from `validation/service.py`:
`all(r.passed for r in results if r.severity == ERROR)`. -/
def is_valid (results : List ValidationResult) : Bool :=
  results.all (fun r => if r.severity = ValidatorSeverity.error then r.passed else true)

/-- Per-job counters of `ProcessingJob` mutated by the fan-out loop of
`ProcessingOrchestrator._run_pipeline` (orchestrator.py). A fresh job
starts with all three at 0 (`processing_job.py` defaults). -/
structure JobCounters where
  documents_processed : Nat := 0
  documents_succeeded : Nat := 0
  documents_failed : Nat := 0
  deriving DecidableEq, Repr

/-- One iteration of the fan-out loop in `_run_pipeline`: the
`try` block over stages classify/resolve/extract/validate/persist
either completes (`Except.ok`) or raises (`Except.error`); the
`except` arm increments `documents_failed`, the successful path
increments `documents_succeeded`, and `documents_processed` is
incremented regardless of outcome. -/
def fanOutStep (job : JobCounters) (outcome : Except String Unit) : JobCounters :=
  let job :=
    match outcome with
    | Except.ok _ => { job with documents_succeeded := job.documents_succeeded + 1 }
    | Except.error _ => { job with documents_failed := job.documents_failed + 1 }
  { job with documents_processed := job.documents_processed + 1 }

/-- The whole fan-out loop of `_run_pipeline`, driven by the list of
per-document outcomes (one entry per detected boundary, in order). -/
def fanOut (outcomes : List (Except String Unit)) (job : JobCounters) : JobCounters :=
  outcomes.foldl fanOutStep job

/-- Final status computation at the end of `_run_pipeline`:
`PARTIALLY_COMPLETED` if both failed>0 and succeeded>0, `FAILED` if
failed>0, else `COMPLETED`. -/
def finalStatus (job : JobCounters) : JobStatus :=
  if job.documents_failed > 0 ∧ job.documents_succeeded > 0 then
    JobStatus.partiallyCompleted
  else if job.documents_failed > 0 then JobStatus.failed
  else JobStatus.completed

/-- `_run_pipeline` counters-and-terminal-status: run the fan-out on a
fresh job and compute the terminal status. -/
def runPipelineOutcome (outcomes : List (Except String Unit)) : JobCounters × JobStatus :=
  let job := fanOut outcomes {}
  (job, finalStatus job)

/-- Number of documents whose per-document stage sequence raised. -/
def failedCount (outcomes : List (Except String Unit)) : Nat :=
  outcomes.countP (fun o => match o with | Except.ok _ => false | Except.error _ => true)

/-- Number of documents whose per-document stage sequence completed. -/
def succeededCount (outcomes : List (Except String Unit)) : Nat :=
  outcomes.countP (fun o => match o with | Except.ok _ => true | Except.error _ => false)

/-! ### Python dicts as association lists -/

/-- Membership test of a Python dict key (`k in d`). -/
def dictHasKey (m : List (String × α)) (k : String) : Bool :=
  m.any (fun p => p.1 == k)

/-- Python dict lookup (`d[k]` / `d.get(k)`), first match. -/
def dictGet? (m : List (String × α)) (k : String) : Option α :=
  (m.find? (fun p => p.1 == k)).map Prod.snd

/-- Python dict assignment `d[k] = v`: replace in place when the key
exists, append otherwise. -/
def dictSet (m : List (String × α)) (k : String) (v : α) : List (String × α) :=
  if dictHasKey m k then m.map (fun p => if p.1 == k then (k, v) else p)
  else m ++ [(k, v)]

/-! ### Catalog and extraction data model -/

/-- `CatalogField` from `catalog/domain/catalog_field.py` — the fields
read by the embedded operations (`code`, `default_value`) plus the
request-facing descriptors; `default_value: Any = None` is embedded as
`Option α` with `none` for Python `None`. -/
structure CatalogField (α : Type) where
  code : String
  display_name : String := ""
  field_type : FieldType := FieldType.text
  description : String := ""
  required : Bool := false
  default_value : Option α := none
  deriving DecidableEq, Repr

/-- `ExtractionResult` as used by `extraction/service.py` and
`pipeline/steps/validation_step.py`: an extracted-field map, a parallel
per-field confidence map, and the strategy label. -/
structure ExtractionResult (α : Type) where
  extracted_fields : List (String × α) := []
  confidence : List (String × Rat) := []
  strategy_used : String := ""
  deriving DecidableEq, Repr

/-- One iteration of the default-value backfill loop of
`ExtractionService.extract` (`extraction/service.py`): when the field's
code is not in `result.extracted_fields` and its `default_value` is not
`None`, set the default into the extracted map and its confidence to
1.0. -/
def backfillStep (res : ExtractionResult α) (f : CatalogField α) : ExtractionResult α :=
  match f.default_value with
  | some d =>
      if dictHasKey res.extracted_fields f.code then res
      else
        { res with
          extracted_fields := dictSet res.extracted_fields f.code d
          confidence := dictSet res.confidence f.code 1 }
  | none => res

/-- The whole default-value backfill loop of
`ExtractionService.extract`, over the resolved field definitions in
order. -/
def applyDefaultBackfill (fields : List (CatalogField α)) (result : ExtractionResult α) :
    ExtractionResult α :=
  fields.foldl backfillStep result

/-- `DocumentType` from `catalog/domain/document_type.py` — the fields
the embedded pipeline logic reads. UUIDs are embedded as `Nat`. -/
structure DocumentType where
  id : Nat
  code : String
  name : String := ""
  description : String := ""
  nature : DocumentNature
  classification_confidence_threshold : Rat := 7/10
  default_field_codes : List String := []
  validator_ids : List Nat := []
  is_active : Bool := true
  deriving DecidableEq, Repr

/-- `IntelliDocConfig` from `config.py` — the setting the orchestrator
reads in field resolution. -/
structure IntelliDocConfig where
  default_confidence_threshold : Rat := 7/10
  deriving DecidableEq, Repr

/-- `ClassificationCandidate` from `classification/models.py`. -/
structure ClassificationCandidate where
  document_type_id : Nat
  document_type_code : String
  confidence : Rat
  reasoning : String := ""
  deriving DecidableEq, Repr

/-- `ClassificationResult` from `classification/models.py`. -/
structure ClassificationResult where
  best_match : Option ClassificationCandidate := none
  candidates : List ClassificationCandidate := []
  confidence : Rat := 0
  reasoning : String := ""
  deriving DecidableEq, Repr

/-- `InlineFieldDefinition` from `results/exposure/schemas.py`. -/
structure InlineFieldDefinition where
  name : String
  display_name : String
  field_type : FieldType
  description : String := ""
  required : Bool := false
  location_hint : String := ""
  deriving DecidableEq, Repr

/-! ### Catalog field resolution (`catalog/service.py`) -/

/-- The in-memory field catalog keyed by code
(`catalog/adapters/memory.py` stores each saved field under
`field.code`); lookup of one code. -/
def findFieldByCode (cat : List (CatalogField α)) (c : String) : Option (CatalogField α) :=
  cat.find? (fun f => f.code == c)

/-- `find_by_codes` of the memory field catalog adapter:
`[by_code[c] for c in codes if c in by_code]`. -/
def findFieldsByCodes (cat : List (CatalogField α)) (codes : List String) :
    List (CatalogField α) :=
  codes.filterMap (findFieldByCode cat)

/-- `CatalogService.resolve_fields`: resolve the requested codes,
collect the requested codes whose code is not among the resolved
fields' codes, and raise `TargetSchemaResolutionException` (carrying
exactly the missing codes) when any are missing. -/
def resolve_fields (cat : List (CatalogField α)) (field_codes : List String) :
    Except (List String) (List (CatalogField α)) :=
  let resolved := findFieldsByCodes cat field_codes
  let resolvedCodes := resolved.map (fun f => f.code)
  let missing := field_codes.filter (fun c => ! resolvedCodes.contains c)
  if missing.isEmpty then Except.ok resolved else Except.error missing

/-- Errors `CatalogService.get_default_fields` can raise:
`DocumentTypeNotFoundException` from `get_document_type`, or a
propagated `TargetSchemaResolutionException` from `resolve_fields`. -/
inductive CatalogError where
  | docTypeNotFound (docTypeId : Nat)
  | resolution (missing_codes : List String)
  deriving DecidableEq, Repr

/-- `CatalogService.get_default_fields`: load the document type by id
(raising when absent), return `[]` when it has no default field codes,
else resolve them through `resolve_fields`. -/
def get_default_fields (docTypes : List DocumentType) (cat : List (CatalogField α))
    (document_type_id : Nat) : Except CatalogError (List (CatalogField α)) :=
  match docTypes.find? (fun dt => dt.id == document_type_id) with
  | none => Except.error (CatalogError.docTypeNotFound document_type_id)
  | some dt =>
      if dt.default_field_codes.isEmpty then Except.ok []
      else
        match resolve_fields cat dt.default_field_codes with
        | Except.ok fs => Except.ok fs
        | Except.error missing => Except.error (CatalogError.resolution missing)

/-! ### Field resolution chain (`ProcessingOrchestrator._resolve_fields`) -/

/-- A catalog access performed by the resolution chain (used to state
that lower-priority sources are never consulted). -/
inductive CatalogQuery where
  | resolveCodes (codes : List String)
  | defaultFieldsOf (docTypeId : Nat)
  deriving DecidableEq, Repr

/-- The slice of the pipeline context `_resolve_fields` reads. -/
structure ResolveSlice (α : Type) where
  inline_fields : List InlineFieldDefinition := []
  target_field_codes : Option (List String) := none
  classification_result : Option ClassificationResult := none
  deriving DecidableEq, Repr

/-- Branch 3 of `_resolve_fields` (catalog defaults of the classified
type): nothing without a best match; nothing when the match's
confidence is below `config.default_confidence_threshold`; otherwise
fetch the type's default fields, swallowing
`DocumentTypeNotFoundException` (ad-hoc/synthesized types) and
propagating a resolution failure. -/
def resolveDefaultsBranch (cfg : IntelliDocConfig) (docTypes : List DocumentType)
    (cat : List (CatalogField α)) (cr : Option ClassificationResult) :
    Except (List String) (List (CatalogField α)) × List CatalogQuery :=
  match cr with
  | none => (Except.ok [], [])
  | some c =>
      match c.best_match with
      | none => (Except.ok [], [])
      | some bm =>
          if bm.confidence < cfg.default_confidence_threshold then (Except.ok [], [])
          else
            match get_default_fields docTypes cat bm.document_type_id with
            | Except.ok fs =>
                (Except.ok fs, [CatalogQuery.defaultFieldsOf bm.document_type_id])
            | Except.error (CatalogError.docTypeNotFound _) =>
                (Except.ok [], [CatalogQuery.defaultFieldsOf bm.document_type_id])
            | Except.error (CatalogError.resolution missing) =>
                (Except.error missing, [CatalogQuery.defaultFieldsOf bm.document_type_id])

/-- `ProcessingOrchestrator._resolve_fields`: the single priority
chain. `conv` stands for `inline_field_to_catalog_field` (imported by
the orchestrator from `results/exposure/schemas.py`). Python truthiness
of `ctx.inline_fields` and `ctx.target_field_codes` (a `None` and an
empty list are both falsy) is embedded explicitly. The second component
records which catalog accesses were performed. -/
def resolve_fields_chain (cfg : IntelliDocConfig) (docTypes : List DocumentType)
    (cat : List (CatalogField α)) (conv : InlineFieldDefinition → CatalogField α)
    (ctx : ResolveSlice α) :
    Except (List String) (List (CatalogField α)) × List CatalogQuery :=
  if ¬ ctx.inline_fields.isEmpty then
    (Except.ok (ctx.inline_fields.map conv), [])
  else
    match ctx.target_field_codes with
    | some codes =>
        if codes.isEmpty then
          resolveDefaultsBranch cfg docTypes cat ctx.classification_result
        else
          (resolve_fields cat codes, [CatalogQuery.resolveCodes codes])
    | none => resolveDefaultsBranch cfg docTypes cat ctx.classification_result

/-- The orchestrator's extraction gate in `_run_pipeline`
(`if ctx.resolved_fields:`): the extraction stage runs iff the
resolved field list is non-empty. -/
def extraction_stage_runs (resolved : List (CatalogField α)) : Bool :=
  ! resolved.isEmpty

/-- The effective threshold as the spec's words describe it (claim C4):
the matched document type's own `classification_confidence_threshold`
when configured — and in the domain model that per-type value is always
present (with default 0.7) — the global default applying only
otherwise. -/
def specEffectiveThreshold (dt : DocumentType) (_cfg : IntelliDocConfig) : Rat :=
  dt.classification_confidence_threshold

/-! ### Classification candidate pool (`classification/service.py`) -/

/-- Modelled from the spec: `AdHocDocumentType` is imported by the
source from `results/exposure/schemas.py` but is absent from the source
tree; per spec §3 an ad-hoc (request-scoped) document type "has the
same shape" as a catalog `DocumentType` "but no catalog id continuity
and no default-field lookup". -/
structure AdHocDocumentType where
  code : String
  name : String := ""
  description : String := ""
  nature : DocumentNature
  deriving DecidableEq, Repr

/-- Modelled from the spec: `ad_hoc_to_document_type` (also missing
from `results/exposure/schemas.py`) builds a transient `DocumentType`
of the same shape; its fresh random UUID, never present in the catalog,
is embedded as id 0. -/
def ad_hoc_to_document_type (t : AdHocDocumentType) : DocumentType :=
  { id := 0, code := t.code, name := t.name, description := t.description,
    nature := t.nature }

/-- The type `ClassificationService.classify` synthesizes from the
`expected_type` hint when no other types exist (its `.title()` display
name is kept as the raw code here; its fresh UUID is embedded as 0). -/
def synthesizeType (expected : String) : DocumentType :=
  { id := 0, code := expected, name := expected, description := "",
    nature := DocumentNature.other }

/-- The candidate-pool construction of `ClassificationService.classify`
(`classification/service.py` steps 1–3): merge catalog-active types
with converted ad-hoc types (skipped when `ad_hoc_types` is `None` or
empty, by Python truthiness), narrow by `expected_nature`, synthesize a
single type from a non-empty `expected_type` only when the pool is
empty, and short-circuit to a zero-confidence result (`none` here — the
classifier agent is never invoked) when the pool is still empty. -/
def classifyPool (catalogActive : List DocumentType)
    (adHocTypes : Option (List AdHocDocumentType))
    (expectedType : Option String) (expectedNature : Option DocumentNature) :
    Option (List DocumentType) :=
  let allTypes :=
    match adHocTypes with
    | some ts =>
        if ts.isEmpty then catalogActive
        else catalogActive ++ ts.map ad_hoc_to_document_type
    | none => catalogActive
  let allTypes :=
    match expectedNature with
    | some n => allTypes.filter (fun dt => dt.nature = n)
    | none => allTypes
  let allTypes :=
    if allTypes.isEmpty then
      match expectedType with
      | some t => if t = "" then [] else [synthesizeType t]
      | none => []
    else allTypes
  if allTypes.isEmpty then none else some allTypes

/-- The pool the pipeline's classification stage actually classifies
against: `ClassificationStep.execute`
(`pipeline/steps/classification_step.py`) calls
`ClassificationService.classify(pages=..., expected_type=...,
expected_nature=...)` — without an `ad_hoc_types` argument, so the
service receives its default `None` for it. -/
def classificationStepPool (catalogActive : List DocumentType)
    (expectedType : Option String) (expectedNature : Option DocumentNature) :
    Option (List DocumentType) :=
  classifyPool catalogActive none expectedType expectedNature

/-! ### Validation stage adapter (`pipeline/steps/validation_step.py`) -/

/-- The arguments `ValidationStep.execute` passes to
`ValidationService.validate` when it invokes it. -/
structure ValidateCall (α : Type) where
  extracted_data : List (String × α)
  document_type_id : Option Nat
  resolved_fields : Option (List (CatalogField α))
  deriving DecidableEq, Repr

/-- The slice of the pipeline context `ValidationStep.execute` reads
and writes. -/
structure ValidationStepSlice (α : Type) where
  extraction_result : Option (ExtractionResult α) := none
  classification_result : Option ClassificationResult := none
  resolved_fields : List (CatalogField α) := []
  validation_results : List ValidationResult := []
  deriving DecidableEq, Repr

/-- `ValidationStep.execute`: returns early when the context has no
extraction result; otherwise derives the document type id from the
classification best match, calls the validation service (with
`resolved_fields or None`) and stores its results on the context. The
second component is the call made to the validation service — `none`
when the service was not invoked at all. -/
def validationStepExec (ctx : ValidationStepSlice α)
    (runValidate : ValidateCall α → List ValidationResult) :
    ValidationStepSlice α × Option (ValidateCall α) :=
  match ctx.extraction_result with
  | none => (ctx, none)
  | some ex =>
      let document_type_id :=
        match ctx.classification_result with
        | some c =>
            match c.best_match with
            | some bm => some bm.document_type_id
            | none => none
        | none => none
      let call : ValidateCall α :=
        { extracted_data := ex.extracted_fields
          document_type_id := document_type_id
          resolved_fields :=
            if ctx.resolved_fields.isEmpty then none else some ctx.resolved_fields }
      ({ ctx with validation_results := runValidate call }, some call)

/-! ### Job status update (`results/service.py`) -/

/-- The slice of `ProcessingJob` that `ResultService.update_job_status`
mutates. `datetime` values are embedded as integer milliseconds. -/
structure JobRecord where
  status : JobStatus := JobStatus.pending
  current_step : String := ""
  progress_percent : Rat := 0
  error_message : Option String := none
  started_at : Option Int := none
  completed_at : Option Int := none
  processing_duration_ms : Int := 0
  updated_at : Int := 0
  deriving DecidableEq, Repr

/-- `ResultService.update_job_status` on an existing job: set the
status, overwrite step/progress/error when supplied, set
`completed_at` (and derive `processing_duration_ms` when `started_at`
is known) when the new status is `COMPLETED` or `FAILED`, start the
clock on the first non-`PENDING` transition, and touch `updated_at`.
`datetime.now()` is embedded as the single `now` argument. -/
def update_job_status (job : JobRecord) (status : JobStatus)
    (current_step : String := "") (progress_percent : Option Rat := none)
    (error_message : Option String := none) (now : Int := 0) : JobRecord :=
  let job := { job with status := status }
  let job := if current_step ≠ "" then { job with current_step := current_step } else job
  let job :=
    match progress_percent with
    | some p => { job with progress_percent := p }
    | none => job
  let job :=
    match error_message with
    | some e => { job with error_message := some e }
    | none => job
  let job :=
    if status = JobStatus.completed ∨ status = JobStatus.failed then
      let job := { job with completed_at := some now }
      match job.started_at with
      | some s => { job with processing_duration_ms := now - s }
      | none => job
    else job
  let job :=
    if status ≠ JobStatus.pending then
      match job.started_at with
      | none => { job with started_at := some now }
      | some _ => job
    else job
  { job with updated_at := now }

/-- The terminal states of the job state machine as the spec's §4.2
state diagram lists them (claim C9's notion of "terminal"). -/
def specTerminalStatus (s : JobStatus) : Bool :=
  s = JobStatus.completed ∨ s = JobStatus.failed ∨ s = JobStatus.partiallyCompleted

/-! ### Context construction (`pipeline/context.py` vs `orchestrator.py`) -/

/-- The declared fields of the `IDPPipelineContext` dataclass, in
declaration order (`pipeline/context.py`). -/
def idpPipelineContextFields : List String :=
  ["job_id", "source_type", "source_reference", "filename",
   "expected_type", "expected_nature", "tenant_id", "correlation_id",
   "splitting_strategy", "tags",
   "target_field_codes", "resolved_fields",
   "file_reference", "preprocessing_result", "splitting_result",
   "current_pages", "current_doc_index", "classification_result",
   "extraction_result", "validation_results",
   "document_results",
   "metadata", "total_tokens_used", "total_cost_usd"]

/-- The keyword arguments `ProcessingOrchestrator.process` (and
identically `submit`) passes to the `IDPPipelineContext` constructor
(`orchestrator.py`). -/
def processContextKwargs : List String :=
  ["job_id", "source_type", "source_reference", "filename",
   "expected_type", "expected_nature", "splitting_strategy",
   "target_field_codes", "inline_fields", "ad_hoc_document_types",
   "tenant_id", "correlation_id", "tags"]

/-- The context attributes the orchestrator reads after construction
(`_run_pipeline` and `_resolve_fields`). -/
def orchestratorContextReads : List String :=
  ["file_reference", "preprocessing_result", "splitting_result",
   "ad_hoc_document_types", "expected_type",
   "current_doc_index", "current_pages", "classification_result",
   "extraction_result", "validation_results", "resolved_fields",
   "inline_fields", "target_field_codes"]

/-- A Python dataclass constructor call succeeds exactly when every
keyword argument names a declared field (all `IDPPipelineContext`
fields carry defaults, so no argument is required); an unexpected
keyword raises `TypeError`. -/
def dataclassAcceptsKwargs (declared kwargs : List String) : Bool :=
  kwargs.all (fun k => declared.contains k)

/-- Attribute reads succeed exactly when every read attribute is a
declared field (reading a missing one raises `AttributeError`). -/
def attributeReadsOk (declared reads : List String) : Bool :=
  reads.all (fun k => declared.contains k)

/-! ## Helper lemmas -/

lemma succeededCount_cons (o : Except String Unit) (os : List (Except String Unit)) :
    succeededCount (o :: os)
      = succeededCount os + (match o with | Except.ok _ => 1 | Except.error _ => 0) := by
  cases o <;> simp [succeededCount, List.countP_cons]

lemma failedCount_cons (o : Except String Unit) (os : List (Except String Unit)) :
    failedCount (o :: os)
      = failedCount os + (match o with | Except.ok _ => 0 | Except.error _ => 1) := by
  cases o <;> simp [failedCount, List.countP_cons]

lemma fanOut_eq (outcomes : List (Except String Unit)) (job : JobCounters) :
    fanOut outcomes job =
      { documents_processed := job.documents_processed + outcomes.length
        documents_succeeded := job.documents_succeeded + succeededCount outcomes
        documents_failed := job.documents_failed + failedCount outcomes } := by
  induction outcomes generalizing job with
  | nil => cases job; simp [fanOut, succeededCount, failedCount]
  | cons o os ih =>
      have hstep : fanOut (o :: os) job = fanOut os (fanOutStep job o) := rfl
      rw [hstep, ih, succeededCount_cons, failedCount_cons]
      cases o <;> simp [fanOutStep] <;> omega

lemma succeeded_add_failed (outcomes : List (Except String Unit)) :
    succeededCount outcomes + failedCount outcomes = outcomes.length := by
  induction outcomes with
  | nil => rfl
  | cons o os ih =>
      cases o <;> simp [succeededCount, failedCount, List.countP_cons] at * <;> omega

lemma findFieldByCode_code (cat : List (CatalogField α)) (c : String)
    (f : CatalogField α) (h : findFieldByCode cat c = some f) : f.code = c := by
  have := List.find?_some h
  simpa using this

lemma mem_resolved_map_code (cat : List (CatalogField α)) (codes : List String)
    (c : String) :
    c ∈ (findFieldsByCodes cat codes).map (fun f => f.code) ↔
      c ∈ codes ∧ (findFieldByCode cat c).isSome := by
  constructor
  · intro h
    rcases List.mem_map.mp h with ⟨f, hf, hcode⟩
    rcases List.mem_filterMap.mp hf with ⟨c', hc', hfind⟩
    have hfc : f.code = c' := findFieldByCode_code cat c' f hfind
    have hcc : c = c' := by rw [← hcode, hfc]
    subst hcc
    exact ⟨hc', by simp [hfind]⟩
  · rintro ⟨hc, hsome⟩
    rcases Option.isSome_iff_exists.mp hsome with ⟨f, hf⟩
    exact List.mem_map.mpr
      ⟨f, List.mem_filterMap.mpr ⟨c, hc, hf⟩, findFieldByCode_code cat c f hf⟩

lemma resolve_missing_eq (cat : List (CatalogField α)) (codes : List String) :
    codes.filter
        (fun c => ! ((findFieldsByCodes cat codes).map (fun f => f.code)).contains c)
      = codes.filter (fun c => (findFieldByCode cat c).isNone) := by
  apply List.filter_congr
  intro c hc
  rcases hfind : findFieldByCode cat c with _ | f
  · have hnm : ¬ c ∈ (findFieldsByCodes cat codes).map (fun f => f.code) := by
      intro h
      rcases (mem_resolved_map_code cat codes c).mp h with ⟨_, hs⟩
      rw [hfind] at hs
      exact absurd hs (by simp)
    simp [hnm, hfind]
  · have hm : c ∈ (findFieldsByCodes cat codes).map (fun f => f.code) :=
      (mem_resolved_map_code cat codes c).mpr ⟨hc, by simp [hfind]⟩
    simp [hm, hfind]

lemma dictHasKey_dictSet (m : List (String × α)) (c : String) (v : α) (k : String) :
    dictHasKey (dictSet m c v) k = (dictHasKey m k || c == k) := by
  unfold dictSet
  by_cases h : dictHasKey m c
  · rw [if_pos h]
    have hmap : dictHasKey (m.map (fun p => if p.1 == c then (c, v) else p)) k
        = dictHasKey m k := by
      unfold dictHasKey
      rw [List.any_map]
      congr 1
      funext p
      by_cases hp : p.1 == c
      · have hpc : p.1 = c := by simpa using hp
        simp [Function.comp, hp, hpc]
      · simp [Function.comp, hp]
    rw [hmap]
    by_cases hck : c == k
    · have hkc : c = k := by simpa using hck
      subst hkc
      simp [h]
    · simp [hck]
  · rw [if_neg h]
    unfold dictHasKey
    rw [List.any_append]
    simp [dictHasKey]

lemma dictGet?_map_ne (m : List (String × α)) (c : String) (v : α) (k : String)
    (hck : (c == k) = false) :
    dictGet? (m.map (fun p => if p.1 == c then (c, v) else p)) k = dictGet? m k := by
  induction m with
  | nil => rfl
  | cons p ps ih =>
      by_cases hp : p.1 == c
      · have hpc : p.1 = c := by simpa using hp
        simp only [List.map_cons, dictGet?] at *
        rw [if_pos hp]
        rw [List.find?_cons, List.find?_cons]
        have h1 : (((c, v) : String × α).1 == k) = false := hck
        have h2 : (p.1 == k) = false := by rw [hpc]; exact hck
        simp only [h1, h2, cond_false]
        exact ih
      · simp only [List.map_cons, dictGet?] at *
        rw [if_neg hp]
        rw [List.find?_cons, List.find?_cons]
        by_cases hpk : p.1 == k
        · simp [hpk]
        · simp only [hpk, cond_false]
          exact ih

lemma dictGet?_replace (m : List (String × α)) (c : String) (v : α) (k : String)
    (h : dictHasKey m c = true) :
    dictGet? (m.map (fun p => if p.1 == c then (c, v) else p)) k
      = if c == k then some v else dictGet? m k := by
  induction m with
  | nil => simp [dictHasKey] at h
  | cons p ps ih =>
      have hor : (p.1 == c) = true ∨ dictHasKey ps c = true := by
        have := h
        unfold dictHasKey at this
        rcases List.any_eq_true.mp this with ⟨q, hq, hqc⟩
        rcases List.mem_cons.mp hq with hq1 | hq1
        · exact Or.inl (hq1 ▸ hqc)
        · exact Or.inr (List.any_eq_true.mpr ⟨q, hq1, hqc⟩)
      by_cases hp : p.1 == c
      · have hpc : p.1 = c := by simpa using hp
        simp only [List.map_cons, dictGet?]
        rw [if_pos hp, List.find?_cons]
        by_cases hck : c == k
        · simp [hck]
        · have h2 : (((c, v) : String × α).1 == k) = false := by simpa using hck
          simp only [h2, cond_false]
          rw [if_neg (by simp_all), List.find?_cons]
          have h3 : (p.1 == k) = false := by rw [hpc]; simpa using hck
          simp only [h3, cond_false]
          exact dictGet?_map_ne ps c v k (by simpa using hck)
      · have hps : dictHasKey ps c = true := by
          rcases hor with h1 | h1
          · exact absurd h1 (by simpa using hp)
          · exact h1
        simp only [List.map_cons, dictGet?]
        rw [if_neg hp, List.find?_cons, List.find?_cons]
        by_cases hpk : p.1 == k
        · have hck : (c == k) = false := by
            by_contra hcontra
            have hck : (c == k) = true := by simpa using hcontra
            have : c = k := by simpa using hck
            have : p.1 == c := by
              rw [this]
              exact hpk
            exact absurd this (by simpa using hp)
          simp [hpk, hck]
        · simp only [hpk, cond_false]
          exact ih hps

lemma dictGet?_append_single (m : List (String × α)) (c : String) (v : α) (k : String)
    (h : dictHasKey m c = false) :
    dictGet? (m ++ [(c, v)]) k = if c == k then some v else dictGet? m k := by
  induction m with
  | nil =>
      simp only [List.nil_append, dictGet?, List.find?_cons, List.find?_nil]
      by_cases hck : c == k
      · simp [hck]
      · simp [hck]
  | cons p ps ih =>
      have hp : (p.1 == c) = false := by
        by_contra hcontra
        have : (p.1 == c) = true := by simpa using hcontra
        have : dictHasKey (p :: ps) c = true := by
          unfold dictHasKey
          exact List.any_eq_true.mpr ⟨p, List.mem_cons_self p ps, this⟩
        simp [this] at h
      have hps : dictHasKey ps c = false := by
        by_contra hcontra
        have h1 : dictHasKey ps c = true := by simpa using hcontra
        unfold dictHasKey at h1
        rcases List.any_eq_true.mp h1 with ⟨q, hq, hqc⟩
        have : dictHasKey (p :: ps) c = true := by
          unfold dictHasKey
          exact List.any_eq_true.mpr ⟨q, List.mem_cons_of_mem p hq, hqc⟩
        simp [this] at h
      simp only [List.cons_append, dictGet?, List.find?_cons]
      by_cases hpk : p.1 == k
      · have hck : (c == k) = false := by
          by_contra hcontra
          have hck : (c == k) = true := by simpa using hcontra
          have hkc : c = k := by simpa using hck
          have : (p.1 == c) = true := by
            have : p.1 = k := by simpa using hpk
            rw [this, hkc]
            simp
          simp [this] at hp
        simp [hpk, hck]
      · simp only [hpk, cond_false]
        have := ih hps
        simpa [dictGet?] using this

lemma dictGet?_dictSet (m : List (String × α)) (c : String) (v : α) (k : String) :
    dictGet? (dictSet m c v) k = if c == k then some v else dictGet? m k := by
  unfold dictSet
  by_cases h : dictHasKey m c
  · rw [if_pos h]
    exact dictGet?_replace m c v k h
  · rw [if_neg h]
    exact dictGet?_append_single m c v k (by simpa using h)

lemma backfillStep_eq_none (res : ExtractionResult α) (f : CatalogField α)
    (h : f.default_value = none) : backfillStep res f = res := by
  unfold backfillStep
  rw [h]

lemma backfillStep_eq_skip (res : ExtractionResult α) (f : CatalogField α) (d : α)
    (h : f.default_value = some d)
    (hk : dictHasKey res.extracted_fields f.code = true) :
    backfillStep res f = res := by
  unfold backfillStep
  rw [h]
  exact if_pos hk

lemma backfillStep_eq_add (res : ExtractionResult α) (f : CatalogField α) (d : α)
    (h : f.default_value = some d)
    (hk : dictHasKey res.extracted_fields f.code = false) :
    backfillStep res f =
      { res with
        extracted_fields := dictSet res.extracted_fields f.code d
        confidence := dictSet res.confidence f.code 1 } := by
  unfold backfillStep
  rw [h]
  exact if_neg (by simp [hk])

lemma backfillStep_hasKey_mono (res : ExtractionResult α) (f : CatalogField α)
    (k : String) (h : dictHasKey res.extracted_fields k = true) :
    dictHasKey (backfillStep res f).extracted_fields k = true := by
  rcases hd : f.default_value with _ | d
  · rw [backfillStep_eq_none res f hd]; exact h
  · by_cases hk : dictHasKey res.extracted_fields f.code
    · rw [backfillStep_eq_skip res f d hd hk]; exact h
    · rw [backfillStep_eq_add res f d hd (by simpa using hk)]
      show dictHasKey (dictSet res.extracted_fields f.code d) k = true
      rw [dictHasKey_dictSet]
      simp [h]

lemma backfillStep_covers (res : ExtractionResult α) (f : CatalogField α)
    (h : f.default_value.isSome = true) :
    dictHasKey (backfillStep res f).extracted_fields f.code = true := by
  rcases hd : f.default_value with _ | d
  · rw [hd] at h; simp at h
  · by_cases hk : dictHasKey res.extracted_fields f.code
    · rw [backfillStep_eq_skip res f d hd hk]; exact hk
    · rw [backfillStep_eq_add res f d hd (by simpa using hk)]
      show dictHasKey (dictSet res.extracted_fields f.code d) f.code = true
      rw [dictHasKey_dictSet]
      simp

lemma backfill_hasKey_mono (fields : List (CatalogField α)) (res : ExtractionResult α)
    (k : String) (h : dictHasKey res.extracted_fields k = true) :
    dictHasKey (applyDefaultBackfill fields res).extracted_fields k = true := by
  induction fields generalizing res with
  | nil => exact h
  | cons g gs ih =>
      exact ih (backfillStep res g) (backfillStep_hasKey_mono res g k h)

lemma backfill_covers (fields : List (CatalogField α)) (res : ExtractionResult α) :
    ∀ f ∈ fields, f.default_value.isSome = true →
      dictHasKey (applyDefaultBackfill fields res).extracted_fields f.code = true := by
  induction fields generalizing res with
  | nil => intro f hf; simp at hf
  | cons g gs ih =>
      intro f hf hd
      rcases List.mem_cons.mp hf with hf1 | hf1
      · subst hf1
        exact backfill_hasKey_mono gs (backfillStep res f) f.code
          (backfillStep_covers res f hd)
      · exact ih (backfillStep res g) f hf1 hd

lemma backfillStep_noop (res : ExtractionResult α) (f : CatalogField α)
    (h : f.default_value.isSome = true → dictHasKey res.extracted_fields f.code = true) :
    backfillStep res f = res := by
  rcases hd : f.default_value with _ | d
  · exact backfillStep_eq_none res f hd
  · exact backfillStep_eq_skip res f d hd (h (by simp [hd]))

lemma backfill_noop (fields : List (CatalogField α)) (res : ExtractionResult α)
    (h : ∀ f ∈ fields, f.default_value.isSome = true →
      dictHasKey res.extracted_fields f.code = true) :
    applyDefaultBackfill fields res = res := by
  induction fields with
  | nil => rfl
  | cons g gs ih =>
      have hstep : backfillStep res g = res :=
        backfillStep_noop res g (h g (List.mem_cons_self g gs))
      have : applyDefaultBackfill (g :: gs) res = applyDefaultBackfill gs res := by
        unfold applyDefaultBackfill
        rw [List.foldl_cons, hstep]
      rw [this]
      exact ih (fun f hf => h f (List.mem_cons_of_mem g hf))

lemma backfill_frozen (fields : List (CatalogField α)) (res : ExtractionResult α)
    (k : String) (hk : ∀ f ∈ fields, (f.code == k) = false) :
    dictGet? (applyDefaultBackfill fields res).extracted_fields k
        = dictGet? res.extracted_fields k ∧
    dictGet? (applyDefaultBackfill fields res).confidence k
        = dictGet? res.confidence k := by
  induction fields generalizing res with
  | nil => exact ⟨rfl, rfl⟩
  | cons g gs ih =>
      have hstep :
          dictGet? (backfillStep res g).extracted_fields k
              = dictGet? res.extracted_fields k ∧
          dictGet? (backfillStep res g).confidence k = dictGet? res.confidence k := by
        rcases hd : g.default_value with _ | d
        · rw [backfillStep_eq_none res g hd]; exact ⟨rfl, rfl⟩
        · by_cases hkey : dictHasKey res.extracted_fields g.code
          · rw [backfillStep_eq_skip res g d hd hkey]; exact ⟨rfl, rfl⟩
          · rw [backfillStep_eq_add res g d hd (by simpa using hkey)]
            constructor
            · show dictGet? (dictSet res.extracted_fields g.code d) k
                  = dictGet? res.extracted_fields k
              rw [dictGet?_dictSet,
                if_neg (by simp [hk g (List.mem_cons_self g gs)])]
            · show dictGet? (dictSet res.confidence g.code 1) k
                  = dictGet? res.confidence k
              rw [dictGet?_dictSet,
                if_neg (by simp [hk g (List.mem_cons_self g gs)])]
      have hfold := ih (backfillStep res g)
        (fun f hf => hk f (List.mem_cons_of_mem g hf))
      exact ⟨hfold.1.trans hstep.1, hfold.2.trans hstep.2⟩

lemma backfill_preserves (fields : List (CatalogField α)) (res : ExtractionResult α)
    (k : String) (hk : dictHasKey res.extracted_fields k = true) :
    dictGet? (applyDefaultBackfill fields res).extracted_fields k
      = dictGet? res.extracted_fields k := by
  induction fields generalizing res with
  | nil => rfl
  | cons g gs ih =>
      have hstep : dictGet? (backfillStep res g).extracted_fields k
          = dictGet? res.extracted_fields k := by
        rcases hd : g.default_value with _ | d
        · rw [backfillStep_eq_none res g hd]
        · by_cases hkey : dictHasKey res.extracted_fields g.code
          · rw [backfillStep_eq_skip res g d hd hkey]
          · rw [backfillStep_eq_add res g d hd (by simpa using hkey)]
            show dictGet? (dictSet res.extracted_fields g.code d) k
                = dictGet? res.extracted_fields k
            rw [dictGet?_dictSet]
            rw [if_neg]
            intro hck
            have : g.code = k := by simpa using hck
            rw [this] at hkey
            exact hkey hk
      have hkey' : dictHasKey (backfillStep res g).extracted_fields k = true :=
        backfillStep_hasKey_mono res g k hk
      exact (ih (backfillStep res g) hkey').trans hstep

lemma backfill_inserts (fields : List (CatalogField α)) (res : ExtractionResult α)
    (hnd : (fields.map (fun f => f.code)).Nodup) :
    ∀ f ∈ fields, ∀ d, f.default_value = some d →
      dictHasKey res.extracted_fields f.code = false →
      dictGet? (applyDefaultBackfill fields res).extracted_fields f.code = some d ∧
      dictGet? (applyDefaultBackfill fields res).confidence f.code = some 1 := by
  induction fields generalizing res with
  | nil => intro f hf; simp at hf
  | cons g gs ih =>
      have hnotin : g.code ∉ gs.map (fun f => f.code) := by
        have := hnd
        simp only [List.map_cons, List.nodup_cons] at this
        exact this.1
      have hndgs : (gs.map (fun f => f.code)).Nodup := by
        have := hnd
        simp only [List.map_cons, List.nodup_cons] at this
        exact this.2
      intro f hf d hd habs
      have hfold : applyDefaultBackfill (g :: gs) res
          = applyDefaultBackfill gs (backfillStep res g) := rfl
      rcases List.mem_cons.mp hf with hf1 | hf1
      · subst hf1
        have hstep := backfillStep_eq_add res f d hd habs
        rw [hfold, hstep]
        have hfr : ∀ f' ∈ gs, (f'.code == f.code) = false := by
          intro f' hf'
          have hne : f'.code ≠ f.code := by
            intro hcontra
            exact hnotin (hcontra ▸ List.mem_map_of_mem (fun f => f.code) hf')
          simpa using hne
        have hfrozen := backfill_frozen gs
          { res with
            extracted_fields := dictSet res.extracted_fields f.code d
            confidence := dictSet res.confidence f.code 1 } f.code hfr
        constructor
        · rw [hfrozen.1]
          show dictGet? (dictSet res.extracted_fields f.code d) f.code = some d
          rw [dictGet?_dictSet]
          simp
        · rw [hfrozen.2]
          show dictGet? (dictSet res.confidence f.code 1) f.code = some 1
          rw [dictGet?_dictSet]
          simp
      · have hcode_ne : g.code ≠ f.code := by
          intro hcontra
          exact hnotin (hcontra ▸ List.mem_map_of_mem (fun f => f.code) hf1)
        have habs' : dictHasKey (backfillStep res g).extracted_fields f.code = false := by
          rcases hdg : g.default_value with _ | dg
          · rw [backfillStep_eq_none res g hdg]; exact habs
          · by_cases hkg : dictHasKey res.extracted_fields g.code
            · rw [backfillStep_eq_skip res g dg hdg hkg]; exact habs
            · rw [backfillStep_eq_add res g dg hdg (by simpa using hkg)]
              show dictHasKey (dictSet res.extracted_fields g.code dg) f.code = false
              rw [dictHasKey_dictSet, habs]
              simp [hcode_ne]
        rw [hfold]
        exact ih (backfillStep res g) hndgs f hf1 d hd habs'

lemma get_default_fields_threshold_invariant (docTypes : List DocumentType)
    (cat : List (CatalogField α)) (docTypeId : Nat) (t : Rat) :
    get_default_fields
        (docTypes.map (fun dt => { dt with classification_confidence_threshold := t }))
        cat docTypeId
      = get_default_fields docTypes cat docTypeId := by
  unfold get_default_fields
  rw [List.find?_map]
  have hp : ((fun dt => dt.id == docTypeId) ∘
      (fun dt => { dt with classification_confidence_threshold := t }))
        = (fun (dt : DocumentType) => dt.id == docTypeId) := rfl
  rw [hp]
  rcases h : docTypes.find? (fun dt => dt.id == docTypeId) with _ | dt <;> simp [h]

/-! ## Claims -/

/-- C1 (amended): for every fan-out over N detected documents of which
exactly k raise during their per-document stage sequence, the pipeline
continues past each failure and ends with `documents_failed = k`,
`documents_succeeded = N - k`, `documents_processed = N`, and terminal
status `COMPLETED` iff k = 0, `FAILED` iff k = N and N > 0, else
`PARTIALLY_COMPLETED`. -/
theorem partial_failure_invariant (outcomes : List (Except String Unit)) :
    (runPipelineOutcome outcomes).1.documents_failed = failedCount outcomes ∧
    (runPipelineOutcome outcomes).1.documents_succeeded
      = outcomes.length - failedCount outcomes ∧
    (runPipelineOutcome outcomes).1.documents_processed = outcomes.length ∧
    ((runPipelineOutcome outcomes).2 = JobStatus.completed ↔ failedCount outcomes = 0) ∧
    ((runPipelineOutcome outcomes).2 = JobStatus.failed ↔
      (failedCount outcomes = outcomes.length ∧ 0 < outcomes.length)) ∧
    ((runPipelineOutcome outcomes).2 = JobStatus.partiallyCompleted ↔
      (0 < failedCount outcomes ∧ failedCount outcomes < outcomes.length)) := by
  have hsum := succeeded_add_failed outcomes
  have h : runPipelineOutcome outcomes
      = (fanOut outcomes {}, finalStatus (fanOut outcomes {})) := rfl
  rw [h, fanOut_eq]
  refine ⟨by simp, ?_, by simp, ?_, ?_, ?_⟩
  · show 0 + succeededCount outcomes = outcomes.length - failedCount outcomes
    omega
  all_goals
    simp only [finalStatus]
    split_ifs with h1 h2 <;> (try simp) <;> (try omega) <;>
      exact fun h3 => List.length_eq_zero.mp (by omega)

/-- C1 counterexample: a job whose splitting detects N = 0 documents
(the whole-document splitter returns zero boundaries for an empty page
list) ends `COMPLETED` although k = N, so the claimed
"`FAILED` iff k = N" biconditional fails at N = k = 0. -/
theorem partial_failure_counterexample :
    (runPipelineOutcome []).2 = JobStatus.completed ∧
    failedCount [] = ([] : List (Except String Unit)).length ∧
    ¬ ((runPipelineOutcome []).2 = JobStatus.failed ↔
        failedCount [] = ([] : List (Except String Unit)).length) := by
  refine ⟨rfl, rfl, ?_⟩
  intro hiff
  exact absurd (hiff.mpr rfl) (by decide)

/-- C8: `compute_validation_score` is passed/total (1.0 on the empty
list), and `is_valid` holds iff every ERROR-severity result passed, so
failing WARNING/INFO results never invalidate a document. -/
theorem validation_aggregates_spec (rs : List ValidationResult) (hne : rs ≠ []) :
    compute_validation_score rs
      = ((rs.filter (fun r => r.passed)).length : Rat) / (rs.length : Rat) ∧
    compute_validation_score [] = 1 ∧
    (is_valid rs = true ↔
      ∀ r ∈ rs, r.severity = ValidatorSeverity.error → r.passed = true) := by
  refine ⟨?_, rfl, ?_⟩
  · rw [compute_validation_score, if_neg (by simpa using hne), List.countP_eq_length_filter]
  · rw [is_valid, List.all_eq_true]
    constructor
    · intro h r hr hsev
      have := h r hr
      rwa [if_pos hsev] at this
    · intro h r hr
      by_cases hsev : r.severity = ValidatorSeverity.error
      · rw [if_pos hsev]; exact h r hr hsev
      · rw [if_neg hsev]

/-- C8 witness: scores and validity evaluated on the concrete result
list [ERROR pass, WARNING pass, WARNING fail]: score 2/3 and valid. -/
theorem validation_aggregates_witness :
    ([{ validator_code := "v1", passed := true, severity := ValidatorSeverity.error },
      { validator_code := "v2", passed := true, severity := ValidatorSeverity.warning },
      { validator_code := "v3", passed := false, severity := ValidatorSeverity.warning }]
        : List ValidationResult) ≠ [] ∧
    compute_validation_score
      [{ validator_code := "v1", passed := true, severity := ValidatorSeverity.error },
       { validator_code := "v2", passed := true, severity := ValidatorSeverity.warning },
       { validator_code := "v3", passed := false, severity := ValidatorSeverity.warning }]
      = (([{ validator_code := "v1", passed := true, severity := ValidatorSeverity.error },
           { validator_code := "v2", passed := true, severity := ValidatorSeverity.warning },
           { validator_code := "v3", passed := false, severity := ValidatorSeverity.warning }]
            : List ValidationResult).filter (fun r => r.passed)).length /
          (([{ validator_code := "v1", passed := true, severity := ValidatorSeverity.error },
             { validator_code := "v2", passed := true, severity := ValidatorSeverity.warning },
             { validator_code := "v3", passed := false, severity := ValidatorSeverity.warning }]
              : List ValidationResult).length : Rat) ∧
    compute_validation_score [] = 1 ∧
    (is_valid
        [{ validator_code := "v1", passed := true, severity := ValidatorSeverity.error },
         { validator_code := "v2", passed := true, severity := ValidatorSeverity.warning },
         { validator_code := "v3", passed := false, severity := ValidatorSeverity.warning }] = true ↔
      ∀ r ∈ ([{ validator_code := "v1", passed := true, severity := ValidatorSeverity.error },
              { validator_code := "v2", passed := true, severity := ValidatorSeverity.warning },
              { validator_code := "v3", passed := false, severity := ValidatorSeverity.warning }]
               : List ValidationResult),
        r.severity = ValidatorSeverity.error → r.passed = true) :=
  ⟨by decide, validation_aggregates_spec _ (by decide)⟩

/-- C10: the `IDPPipelineContext` dataclass does NOT accept the keyword
arguments the orchestrator passes — `inline_fields` and
`ad_hoc_document_types` are passed by `process`/`submit` and read by
`_run_pipeline`/`_resolve_fields` but are not declared fields, so every
construction raises `TypeError` (and the later reads would raise
`AttributeError`). -/
theorem context_construction_bug :
    dataclassAcceptsKwargs idpPipelineContextFields processContextKwargs = false ∧
    "inline_fields" ∈ processContextKwargs ∧
    "inline_fields" ∉ idpPipelineContextFields ∧
    "ad_hoc_document_types" ∈ processContextKwargs ∧
    "ad_hoc_document_types" ∉ idpPipelineContextFields ∧
    attributeReadsOk idpPipelineContextFields orchestratorContextReads = false := by
  refine ⟨rfl, ?_, ?_, ?_, ?_, rfl⟩ <;> decide

/-- C9 (amended): `update_job_status` assigns `completed_at := now`
exactly when the new status is `COMPLETED` or `FAILED` (deriving
`processing_duration_ms = now - started_at` when the clock was
started), and leaves both untouched on every other transition —
including the terminal `PARTIALLY_COMPLETED`. -/
theorem completed_at_update_spec (job : JobRecord) (status : JobStatus)
    (step : String) (progress : Option Rat) (err : Option String) (now : Int) :
    (update_job_status job status step progress err now).completed_at
      = (if status = JobStatus.completed ∨ status = JobStatus.failed then some now
         else job.completed_at) ∧
    (update_job_status job status step progress err now).processing_duration_ms
      = (if status = JobStatus.completed ∨ status = JobStatus.failed then
           match job.started_at with
           | some s => now - s
           | none => job.processing_duration_ms
         else job.processing_duration_ms) := by
  unfold update_job_status
  rcases progress with _ | p <;> rcases err with _ | e <;>
    by_cases hstep : step ≠ "" <;>
    by_cases hterm : status = JobStatus.completed ∨ status = JobStatus.failed <;>
    by_cases hpend : status ≠ JobStatus.pending <;>
    rcases hstart : job.started_at with _ | s <;>
    simp [hstep, hterm, hpend, hstart]

/-- C9 counterexample: `PARTIALLY_COMPLETED` is a terminal state of the
spec's state machine, yet updating a job to it leaves `completed_at`
unset — refuting "completed_at is assigned iff the new status is
terminal" for the claimed terminal set
{COMPLETED, FAILED, PARTIALLY_COMPLETED}. -/
theorem completed_at_counterexample :
    specTerminalStatus JobStatus.partiallyCompleted = true ∧
    (update_job_status {} JobStatus.partiallyCompleted "complete" (some 100) none 5000).completed_at
      = none ∧
    ¬ ((update_job_status {} JobStatus.partiallyCompleted "complete" (some 100) none
          5000).completed_at ≠ none
        ↔ specTerminalStatus JobStatus.partiallyCompleted = true) := by
  refine ⟨rfl, rfl, ?_⟩
  intro hiff
  exact (hiff.mpr rfl) rfl

/-- C2 (amended): the orchestrator invokes the validation step for
every document, but `ValidationStep.execute` calls the validation
service iff the context carries an extraction result; when it does, the
service receives that result's extracted field map and the step stores
the service's results; when extraction was skipped or produced nothing,
the step returns with the context unchanged (its per-document
validation result list stays as reset, i.e. empty). -/
theorem validation_step_spec (α : Type) (ctx : ValidationStepSlice α)
    (runValidate : ValidateCall α → List ValidationResult) :
    ((validationStepExec ctx runValidate).2.isSome = ctx.extraction_result.isSome) ∧
    (ctx.extraction_result = none → validationStepExec ctx runValidate = (ctx, none)) ∧
    (∀ ex, ctx.extraction_result = some ex →
      ∃ call, (validationStepExec ctx runValidate).2 = some call ∧
        call.extracted_data = ex.extracted_fields ∧
        (validationStepExec ctx runValidate).1.validation_results = runValidate call) := by
  rcases hex : ctx.extraction_result with _ | ex
  · refine ⟨?_, fun _ => ?_, fun ex h => absurd h (by simp)⟩ <;>
      simp [validationStepExec, hex]
  · refine ⟨by simp [validationStepExec, hex], fun h => absurd h (by simp), ?_⟩
    intro ex' hex'
    cases Option.some.inj hex'
    refine ⟨{ extracted_data := ex.extracted_fields
              document_type_id :=
                match ctx.classification_result with
                | some c =>
                    match c.best_match with
                    | some bm => some bm.document_type_id
                    | none => none
                | none => none
              resolved_fields :=
                if ctx.resolved_fields.isEmpty then none else some ctx.resolved_fields },
            ?_, rfl, ?_⟩ <;> simp [validationStepExec, hex]

/-- C2 witness: a context with no extraction result passes through the
validation step unchanged and without a service call. -/
theorem validation_step_witness :
    ({} : ValidationStepSlice Nat).extraction_result = none ∧
    validationStepExec ({} : ValidationStepSlice Nat) (fun _ => []) = ({}, none) :=
  ⟨rfl, (validation_step_spec Nat {} (fun _ => [])).2.1 rfl⟩

/-- C2 counterexample: the claim "validation is executed
unconditionally — with an empty extraction result when extraction was
skipped" is false: with no extraction result the validation service is
never invoked (no call, not even one with empty extracted data). -/
theorem validation_step_counterexample :
    ¬ ((validationStepExec ({} : ValidationStepSlice String)
          (fun _ => [])).2.isSome = true) := by
  decide

/-- C5: within the pipeline, `ClassificationStep.execute` invokes
`ClassificationService.classify` without the `ad_hoc_types` argument,
so the candidate pool never contains the request-supplied ad-hoc types:
with an empty catalog and one ad-hoc type the step's classification
short-circuits on an empty pool (`none` — the classifier is never
invoked), while the service invoked with the ad-hoc types (as the spec
describes) would classify against exactly that type. -/
theorem ad_hoc_types_never_in_pipeline_pool :
    (∀ (catalogActive : List DocumentType) (expectedType : Option String)
        (expectedNature : Option DocumentNature),
      classificationStepPool catalogActive expectedType expectedNature
        = classifyPool catalogActive none expectedType expectedNature) ∧
    classificationStepPool [] none none = none ∧
    classifyPool []
        (some [{ code := "invoice", nature := DocumentNature.financial }]) none none
      = some [ad_hoc_to_document_type
          { code := "invoice", nature := DocumentNature.financial }] := by
  exact ⟨fun _ _ _ => rfl, rfl, rfl⟩

/-- C6: `CatalogService.resolve_fields` returns the resolved catalog
fields when every requested code has a catalog entry, and otherwise
raises a resolution error whose context names exactly the requested
codes with no catalog entry — never a partial field list. -/
theorem target_schema_resolution_spec (α : Type) (cat : List (CatalogField α))
    (codes : List String) :
    resolve_fields cat codes =
      (if (codes.filter (fun c => (findFieldByCode cat c).isNone)).isEmpty then
        Except.ok (findFieldsByCodes cat codes)
      else Except.error (codes.filter (fun c => (findFieldByCode cat c).isNone))) := by
  simp only [resolve_fields]
  rw [resolve_missing_eq]

/-- C3: the field resolution chain of
`ProcessingOrchestrator._resolve_fields` picks exactly the
highest-priority applicable source: non-empty inline fields are used
verbatim with no catalog access at all (target codes are never looked
up); else present non-empty target codes are resolved against the
catalog; else the catalog-defaults branch of the classified type runs;
and when that branch has no best match either, the resolved set is
empty and the orchestrator's extraction gate skips extraction. -/
theorem field_resolution_priority (α : Type) (cfg : IntelliDocConfig)
    (docTypes : List DocumentType) (cat : List (CatalogField α))
    (conv : InlineFieldDefinition → CatalogField α) (ctx : ResolveSlice α) :
    (ctx.inline_fields ≠ [] →
      resolve_fields_chain cfg docTypes cat conv ctx
        = (Except.ok (ctx.inline_fields.map conv), [])) ∧
    (ctx.inline_fields = [] → ∀ codes, ctx.target_field_codes = some codes →
      codes ≠ [] →
      resolve_fields_chain cfg docTypes cat conv ctx
        = (resolve_fields cat codes, [CatalogQuery.resolveCodes codes])) ∧
    (ctx.inline_fields = [] →
      (ctx.target_field_codes = none ∨ ctx.target_field_codes = some []) →
      resolve_fields_chain cfg docTypes cat conv ctx
        = resolveDefaultsBranch cfg docTypes cat ctx.classification_result) ∧
    (ctx.inline_fields = [] →
      (ctx.target_field_codes = none ∨ ctx.target_field_codes = some []) →
      (∀ c, ctx.classification_result = some c → c.best_match = none) →
      resolve_fields_chain cfg docTypes cat conv ctx = (Except.ok [], []) ∧
        extraction_stage_runs ([] : List (CatalogField α)) = false) := by
  refine ⟨?_, ?_, ?_, ?_⟩
  · intro hinl
    rw [resolve_fields_chain, if_pos (by simpa using hinl)]
  · intro hinl codes htgt hne
    rw [resolve_fields_chain, if_neg (by simp [hinl]), htgt]
    simp only []
    rw [if_neg (by simpa using hne)]
  · intro hinl htgt
    rcases htgt with h | h
    · rw [resolve_fields_chain, if_neg (by simp [hinl]), h]
    · rw [resolve_fields_chain, if_neg (by simp [hinl]), h]
      simp
  · intro hinl htgt hnomatch
    have hdef : resolve_fields_chain cfg docTypes cat conv ctx
        = resolveDefaultsBranch cfg docTypes cat ctx.classification_result := by
      rcases htgt with h | h
      · rw [resolve_fields_chain, if_neg (by simp [hinl]), h]
      · rw [resolve_fields_chain, if_neg (by simp [hinl]), h]
        simp
    rw [hdef]
    rcases hcr : ctx.classification_result with _ | c
    · exact ⟨rfl, rfl⟩
    · rw [resolveDefaultsBranch, hnomatch c hcr]
      exact ⟨rfl, rfl⟩

/-- C3 witness: with one inline field definition present the chain
returns exactly its conversion and performs no catalog access. -/
theorem field_resolution_priority_witness :
    ([({ name := "total", display_name := "Total", field_type := FieldType.number }
        : InlineFieldDefinition)] ≠ []) ∧
    resolve_fields_chain (α := String) {} [] []
        (fun f => { code := f.name, display_name := f.display_name,
                    field_type := f.field_type })
        { inline_fields :=
            [{ name := "total", display_name := "Total", field_type := FieldType.number }] }
      = (Except.ok
          ([({ name := "total", display_name := "Total", field_type := FieldType.number }
              : InlineFieldDefinition)].map
            (fun f => ({ code := f.name, display_name := f.display_name,
                         field_type := f.field_type } : CatalogField String))), []) :=
  ⟨by decide,
    (field_resolution_priority String {} [] []
      (fun f => { code := f.name, display_name := f.display_name,
                  field_type := f.field_type })
      { inline_fields :=
          [{ name := "total", display_name := "Total", field_type := FieldType.number }] }).1
      (by decide)⟩

/-- C4 (amended): in the catalog-defaults branch of field resolution
the confidence of the best match is always compared against the global
`config.default_confidence_threshold`; the matched document type's own
`classification_confidence_threshold` is never consulted — catalog
default fields are fetched iff a best match exists with confidence ≥
the global default threshold, and the branch's outcome is invariant
under changing every catalog type's per-type threshold. -/
theorem catalog_defaults_threshold_spec (α : Type) (cfg : IntelliDocConfig)
    (docTypes : List DocumentType) (cat : List (CatalogField α))
    (cr : Option ClassificationResult) :
    ((resolveDefaultsBranch cfg docTypes cat cr).2 ≠ [] ↔
      ∃ c bm, cr = some c ∧ c.best_match = some bm ∧
        cfg.default_confidence_threshold ≤ bm.confidence) ∧
    (∀ t : Rat,
      resolveDefaultsBranch cfg
          (docTypes.map (fun dt => { dt with classification_confidence_threshold := t }))
          cat cr
        = resolveDefaultsBranch cfg docTypes cat cr) := by
  constructor
  · rcases cr with _ | c
    · simp [resolveDefaultsBranch]
    · rcases hbm : c.best_match with _ | bm
      · simp [resolveDefaultsBranch, hbm]
      · simp only [resolveDefaultsBranch, hbm]
        by_cases hlt : bm.confidence < cfg.default_confidence_threshold
        · rw [if_pos hlt]
          simp only [ne_eq, not_true_eq_false, false_iff]
          rintro ⟨c', bm', hc', hbm', hle⟩
          cases Option.some.inj hc'
          rw [hbm] at hbm'
          cases Option.some.inj hbm'
          exact absurd hle (not_le.mpr hlt)
        · rw [if_neg hlt]
          rcases hgd : get_default_fields docTypes cat bm.document_type_id with e | fs
          · rcases e with id | missing <;>
              exact iff_of_true (by simp) ⟨c, bm, rfl, hbm, not_lt.mp hlt⟩
          · exact iff_of_true (by simp) ⟨c, bm, rfl, hbm, not_lt.mp hlt⟩
  · intro t
    rcases cr with _ | c
    · rfl
    · rcases hbm : c.best_match with _ | bm
      · simp only [resolveDefaultsBranch, hbm]
      · simp only [resolveDefaultsBranch, hbm]
        rw [get_default_fields_threshold_invariant]

/-- C4 counterexample: a catalog type with its own threshold 0.9,
default field "a", global default threshold 0.7, and a best match at
confidence 0.8: the branch fetches the defaults (0.8 ≥ 0.7) although
0.8 is below the type-specific effective threshold the claim
prescribes, so "fetched iff confidence ≥ effective threshold" is
false. -/
theorem catalog_defaults_threshold_counterexample :
    (4/5 : Rat) < specEffectiveThreshold
        { id := 1, code := "inv", nature := DocumentNature.financial,
          classification_confidence_threshold := 9/10, default_field_codes := ["a"] } {} ∧
    resolveDefaultsBranch (α := String) {}
        [{ id := 1, code := "inv", nature := DocumentNature.financial,
           classification_confidence_threshold := 9/10, default_field_codes := ["a"] }]
        [{ code := "a" }]
        (some { best_match := some { document_type_id := 1, document_type_code := "inv",
                                     confidence := 4/5 } })
      = (Except.ok [{ code := "a" }], [CatalogQuery.defaultFieldsOf 1]) ∧
    ¬ (((resolveDefaultsBranch (α := String) {}
          [{ id := 1, code := "inv", nature := DocumentNature.financial,
             classification_confidence_threshold := 9/10, default_field_codes := ["a"] }]
          [{ code := "a" }]
          (some { best_match := some { document_type_id := 1, document_type_code := "inv",
                                       confidence := 4/5 } })).2 ≠ []) ↔
        specEffectiveThreshold
            { id := 1, code := "inv", nature := DocumentNature.financial,
              classification_confidence_threshold := 9/10, default_field_codes := ["a"] } {}
          ≤ (4/5 : Rat)) := by
  have heq : resolveDefaultsBranch (α := String) {}
        [{ id := 1, code := "inv", nature := DocumentNature.financial,
           classification_confidence_threshold := 9/10, default_field_codes := ["a"] }]
        [{ code := "a" }]
        (some { best_match := some { document_type_id := 1, document_type_code := "inv",
                                     confidence := 4/5 } })
      = (Except.ok [{ code := "a" }], [CatalogQuery.defaultFieldsOf 1]) := by
    have hgdf : get_default_fields (α := String)
        [{ id := 1, code := "inv", nature := DocumentNature.financial,
           classification_confidence_threshold := 9/10, default_field_codes := ["a"] }]
        [{ code := "a" }] 1 = Except.ok [{ code := "a" }] := rfl
    simp only [resolveDefaultsBranch]
    rw [if_neg (by norm_num), hgdf]
  refine ⟨by norm_num [specEffectiveThreshold], heq, ?_⟩
  intro hiff
  have h1 : ((resolveDefaultsBranch (α := String) {}
      [{ id := 1, code := "inv", nature := DocumentNature.financial,
         classification_confidence_threshold := 9/10, default_field_codes := ["a"] }]
      [{ code := "a" }]
      (some { best_match := some { document_type_id := 1, document_type_code := "inv",
                                   confidence := 4/5 } })).2 ≠ []) := by
    rw [heq]
    simp
  have h2 := hiff.mp h1
  rw [specEffectiveThreshold] at h2
  norm_num at h2

/-- C7: the default-value backfill of `ExtractionService.extract`
injects, for every resolved field (distinct codes) with a non-null
default whose code is absent from the extracted map, that default with
per-field confidence 1.0; it changes no key already present; and
applying it a second time to its own output changes nothing
(idempotence). -/
theorem default_backfill_spec (α : Type) (fields : List (CatalogField α))
    (res : ExtractionResult α)
    (hnd : (fields.map (fun f => f.code)).Nodup) :
    (∀ f ∈ fields, ∀ d, f.default_value = some d →
        dictHasKey res.extracted_fields f.code = false →
        dictGet? (applyDefaultBackfill fields res).extracted_fields f.code = some d ∧
        dictGet? (applyDefaultBackfill fields res).confidence f.code = some 1) ∧
    (∀ k, dictHasKey res.extracted_fields k = true →
        dictGet? (applyDefaultBackfill fields res).extracted_fields k
          = dictGet? res.extracted_fields k) ∧
    applyDefaultBackfill fields (applyDefaultBackfill fields res)
      = applyDefaultBackfill fields res := by
  refine ⟨backfill_inserts fields res hnd,
    fun k hk => backfill_preserves fields res k hk, ?_⟩
  exact backfill_noop fields _ (backfill_covers fields res)

/-- C7 witness: one field with default "0" on an empty extraction
result — nodup codes, and the backfill is idempotent there. -/
theorem default_backfill_witness :
    (([({ code := "amount", default_value := some "0" } : CatalogField String)]).map
        (fun f => f.code)).Nodup ∧
    applyDefaultBackfill
        [({ code := "amount", default_value := some "0" } : CatalogField String)]
        (applyDefaultBackfill
          [({ code := "amount", default_value := some "0" } : CatalogField String)] {})
      = applyDefaultBackfill
          [({ code := "amount", default_value := some "0" } : CatalogField String)] {} :=
  ⟨by decide,
    (default_backfill_spec String
      [({ code := "amount", default_value := some "0" } : CatalogField String)] {}
      (by decide)).2.2⟩

end IntelliDoc
